import Mathlib

/-!
Verification development for the IQONIK HRMS leave/attendance/payroll core
(`backend/index.js` together with `db/schema.sql`).

The embedding models the relational state as lists of rows, mirroring the
tables `leaves` and `attendance_days`.  Calendar dates are modelled as
integers (day numbers); `DATE` arithmetic such as `end_date - start_date`
and `generate_series(start, end, interval '1 day')` becomes integer
arithmetic on those day numbers.  The route handlers that the claims are
about are translated statement by statement:

* `POST /api/leave/apply`            → `HRMS.applyLeave`
* `PUT  /api/leave/:id/status`       → `HRMS.decideTx`
* `GET  /api/leave/balance`          → `HRMS.leaveBalanceRoute` (always the
  500 error: its SQL fails PostgreSQL function resolution), with
  `HRMS.leaveBalance` / `HRMS.usedDays` as the route's dead row mapping and
  the query's intended derivation
* `GET  /api/hr/payroll-summary`     → `HRMS.statusCount` / `HRMS.payableSalary`

The single SQL statement that back-fills attendance on approval
(`INSERT ... SELECT ... FROM generate_series ... ON CONFLICT (employee_id, date)
DO UPDATE`) is modelled by folding a per-day upsert (`HRMS.upsertAttendance`)
over the inclusive date range (`HRMS.dateRange`); the unique index
`idx_attendance_unique` on `(employee_id, date)` is the invariant
`HRMS.atMostOnePerKey`.  The `BEGIN`/`COMMIT`/`ROLLBACK` transaction in the
decision route is modelled by `decideTx` returning the observable state
together with the response: on any error path the observable state is the
input state (rollback), and the serializing `SELECT ... FOR UPDATE` row lock
means concurrent decisions on one request execute as if sequential, which is
the semantics `decideTx` gives.  The `attOk` flag injects a failure of the
attendance insert statement (the only statement between the status update and
`COMMIT`), so that the rollback behaviour is part of the model.
-/

namespace HRMS

/-- Equality on `Except` values is decidable; used to evaluate route
responses on concrete inputs. -/
instance {α β : Type} [DecidableEq α] [DecidableEq β] : DecidableEq (Except α β) :=
  fun a b =>
    match a, b with
    | Except.ok x, Except.ok y =>
      if h : x = y then isTrue (by simp [h]) else isFalse (by simp [h])
    | Except.error x, Except.error y =>
      if h : x = y then isTrue (by simp [h]) else isFalse (by simp [h])
    | Except.ok _, Except.error _ => isFalse (by simp)
    | Except.error _, Except.ok _ => isFalse (by simp)

/-- JavaScript `String.prototype.toLowerCase()` on the status argument,
written as a character-by-character map so that it evaluates inside the
kernel. -/
def lowerString (s : String) : String := String.mk (s.data.map Char.toLower)

/-- A row of the `leaves` table (`db/schema.sql`): employee reference, leave
category (`type`), inclusive date range, reason, lifecycle status
(`pending | approved | rejected`), approver, creation timestamp. -/
structure Leave where
  id : Nat
  employee_id : Nat
  type : String
  start_date : Int
  end_date : Int
  reason : Option String
  status : String
  approver_id : Option Nat
  created_at : Nat
deriving DecidableEq

/-- A row of the `attendance_days` table: employee reference, calendar date,
optional punch times, source tag, geofence flag and status
(`present | absent | leave | wfh`). -/
structure AttendanceDay where
  employee_id : Nat
  date : Int
  in_time : Option Nat
  out_time : Option Nat
  source : Option String
  geofence_ok : Option Bool
  status : String
deriving DecidableEq

/-- The part of the database state the leave/attendance core reads and
writes. -/
structure DB where
  leaves : List Leave
  attendance : List AttendanceDay
deriving DecidableEq

/-- The unique index `idx_attendance_unique ON attendance_days(employee_id,
date)`: at most one attendance row per (employee, date) natural key. -/
def atMostOnePerKey (att : List AttendanceDay) : Prop :=
  att.Pairwise fun a b => ¬(a.employee_id = b.employee_id ∧ a.date = b.date)

instance : DecidablePred atMostOnePerKey := fun att =>
  List.instDecidablePairwise att

/-- `leaves.id` is a primary key: distinct rows carry distinct ids. -/
def uniqueIds (l : List Leave) : Prop :=
  l.Pairwise fun a b => a.id ≠ b.id

instance : DecidablePred uniqueIds := fun l => List.instDecidablePairwise l

/-- The natural key test used by `ON CONFLICT (employee_id, date)`. -/
def keyMatch (emp : Nat) (d : Int) (a : AttendanceDay) : Bool :=
  a.employee_id == emp && a.date == d

@[simp] theorem keyMatch_iff (emp : Nat) (d : Int) (a : AttendanceDay) :
    keyMatch emp d a = true ↔ a.employee_id = emp ∧ a.date = d := by
  simp [keyMatch]

/-- One day of the back-fill statement: `INSERT INTO attendance_days
(employee_id, date, status, source, geofence_ok) VALUES ... ON CONFLICT
(employee_id, date) DO UPDATE SET status=..., source=..., geofence_ok=...`.
If a row with the natural key exists it is updated in place (punch times and
other columns are left alone); otherwise a fresh row is inserted. -/
def upsertAttendance (att : List AttendanceDay) (emp : Nat) (d : Int)
    (st src : String) (g : Bool) : List AttendanceDay :=
  if att.any (keyMatch emp d) then
    att.map fun a =>
      if keyMatch emp d a then
        { a with status := st, source := some src, geofence_ok := some g }
      else a
  else
    att ++ [{ employee_id := emp, date := d, in_time := none, out_time := none,
              source := some src, geofence_ok := some g, status := st }]

/-- `generate_series($start::date, $end::date, interval '1 day')`: the
inclusive list of day numbers from `s` to `e`; empty when `s > e`. -/
def dateRange (s e : Int) : List Int :=
  (List.range (e + 1 - s).toNat).map fun (i : Nat) => s + (i : Int)

/-- Folding the per-day upsert over the leave's date range, with the fixed
values `status='leave', source='web', geofence_ok=true` from the route. -/
def backfill (att : List AttendanceDay) (emp : Nat) (ds : List Int) :
    List AttendanceDay :=
  ds.foldl (fun acc d => upsertAttendance acc emp d "leave" "web" true) att

/-- `SELECT * FROM leaves WHERE id=$1 AND status='pending' FOR UPDATE`. -/
def findPending (l : List Leave) (id : Nat) : Option Leave :=
  l.find? fun x => x.id == id && x.status == "pending"

/-- `UPDATE leaves SET status=$1, approver_id=$2 WHERE id=$3`, applied to a
single row. -/
def setDecided (id : Nat) (s : String) (approver : Nat) (l : Leave) : Leave :=
  if l.id = id then { l with status := s, approver_id := some approver } else l

/-- The decision route `PUT /api/leave/:id/status`.  Validates the requested
status, then inside one transaction: locks and re-checks the pending row,
flips its status and records the approver, and on approval back-fills the
attendance ledger over the inclusive date range.  `attOk` injects a failure
of the attendance insert statement; any failure rolls the transaction back,
so the returned observable state is the input state on every error path.
Returns the observable state together with the response
(`ok status` or an error message). -/
def decideTx (db : DB) (id : Nat) (status : String) (approver : Nat)
    (attOk : Bool) : DB × Except String String :=
  let s := lowerString status
  if s = "approved" ∨ s = "rejected" then
    match findPending db.leaves id with
    | none => (db, Except.error "Leave not found or already processed")
    | some leave =>
      let leaves1 := db.leaves.map (setDecided id s approver)
      if s = "approved" then
        if attOk then
          ({ leaves := leaves1,
             attendance := backfill db.attendance leave.employee_id
               (dateRange leave.start_date leave.end_date) },
           Except.ok s)
        else (db, Except.error "Failed to update leave")
      else ({ leaves := leaves1, attendance := db.attendance }, Except.ok s)
  else (db, Except.error "status must be approved or rejected")

/-- The submission route `POST /api/leave/apply`: rejects the request iff
`type`, `start_date` or `end_date` is missing, and otherwise inserts a fresh
`pending` row (the employee id is resolved from the token, here passed
directly; `newId` stands for the generated primary key). -/
def applyLeave (db : DB) (empId : Nat) (type : Option String)
    (sd ed : Option Int) (reason : Option String) (newId : Nat)
    (createdAt : Nat) : DB × Except String Nat :=
  match type, sd, ed with
  | some t, some s, some e =>
    ({ db with leaves := db.leaves ++
        [{ id := newId, employee_id := empId, type := t, start_date := s,
           end_date := e, reason := reason, status := "pending",
           approver_id := none, created_at := createdAt }] },
     Except.ok newId)
  | _, _, _ => (db, Except.error "type, start_date, end_date required")

/-- `GREATEST(1, DATE_PART('day', (end_date - start_date)) + 1)`: the day
count one leave row is meant to be charged.  Note that the SQL subexpression
itself does not type-check in PostgreSQL on the schema's `DATE` columns (see
`leaveBalanceRoute`); this definition captures its evident intended value,
the inclusive day difference clamped below at 1. -/
def leaveDays (l : Leave) : Int :=
  max 1 (l.end_date - l.start_date + 1)

/-- The `used` figure the balance query of `GET /api/leave/balance` is
written to derive for one (employee, category) pair: the summed day counts
of the employee's `approved` leaves of that category whose `start_date`
falls on or after the start of the current year (`start_date >=
DATE_TRUNC('year', NOW())`, the year start passed here as `ys`).  As with
`leaveDays`, this is the query's intended value; at runtime the query never
yields it because its `DATE_PART` call fails PostgreSQL function resolution
(see `leaveBalanceRoute`). -/
def usedDays (l : List Leave) (emp : Nat) (t : String) (ys : Int) : Int :=
  ((l.filter fun x =>
      x.employee_id == emp && x.status == "approved" && x.type == t &&
        decide (ys ≤ x.start_date)).map leaveDays).sum

/-- The fixed default allocations `ALLOC = { CL: 12, SL: 8, PL: 12 }`. -/
def ALLOC : List (String × Int) := [("CL", 12), ("SL", 8), ("PL", 12)]

/-- One row of the balance response shape. -/
structure BalanceRow where
  type : String
  allocated : Int
  used : Int
  remaining : Int
deriving DecidableEq

/-- The JS row mapping of `GET /api/leave/balance`: one row per allocated
category, with `used` taken from the query result and
`remaining = allocated - used` (no clamping).  This mapping is present in
the route body but is never reached at runtime, because the query feeding it
always errors (see `leaveBalanceRoute`). -/
def leaveBalance (l : List Leave) (emp : Nat) (ys : Int) : List BalanceRow :=
  ALLOC.map fun p =>
    { type := p.1, allocated := p.2, used := usedDays l emp p.1 ys,
      remaining := p.2 - usedDays l emp p.1 ys }

/-- The observable behaviour of `GET /api/leave/balance`.  The route's SQL
applies `DATE_PART('day', (end_date - start_date))` to the difference of two
`DATE` columns; in PostgreSQL `date - date` has type integer, no
`date_part(text, _)` overload accepts an integer and no implicit cast
applies, so the query fails function resolution (`function
date_part(unknown, integer) does not exist`) before reading any row.  The
route's catch block turns the thrown error into the 500 response `Failed to
fetch balances`.  The route therefore errors on every database state, and
the mapping `leaveBalance` is dead code. -/
def leaveBalanceRoute (_l : List Leave) (_emp : Nat) (_ys : Int) :
    Except String (List BalanceRow) :=
  Except.error "Failed to fetch balances"

/-- The attendance rows of one employee falling in the half-open month
interval `[mStart, mEnd)`, as selected by
`a.date >= $1::date AND a.date < $2::date`. -/
def monthRows (att : List AttendanceDay) (emp : Nat) (mStart mEnd : Int) :
    List AttendanceDay :=
  att.filter fun a =>
    a.employee_id == emp && decide (mStart ≤ a.date) && decide (a.date < mEnd)

/-- `SUM(CASE WHEN a.status = st THEN 1 ELSE 0 END)` over the month rows:
the bucket count for one status. -/
def statusCount (att : List AttendanceDay) (emp : Nat) (mStart mEnd : Int)
    (st : String) : Nat :=
  ((monthRows att emp mStart mEnd).filter fun a => a.status == st).length

/-- JavaScript `Math.round`: `⌊x + 1/2⌋` on rationals. -/
def jsRound (x : Rat) : Int := ⌊x + 1/2⌋

/-- `const WORKING_DAYS = 26`. -/
def WORKING_DAYS : Nat := 26

/-- `payable_salary = Math.round(base * (Math.max(0, presents + leaves) /
WORKING_DAYS))` from `GET /api/hr/payroll-summary`. -/
def payableSalary (base : Rat) (presents leaves : Nat) : Int :=
  jsRound (base * (max 0 ((presents : Rat) + (leaves : Rat)) / (WORKING_DAYS : Rat)))

/-- Modelled from the spec: the payable formula as §4.4 of the design states
it — `round(base_compensation * max(0, presents + leaves) /
workingDaysPerMonth)` with half-up rounding — kept separate from
`payableSalary` so the two can be compared. -/
def payableSpecFormula (base : Rat) (presents leaves : Nat)
    (workingDays : Nat) : Int :=
  ⌊(base * max 0 ((presents : Rat) + (leaves : Rat)) / (workingDays : Rat)) + 1/2⌋

/-! ### Lemmas about the date range -/

theorem mem_dateRange {s e d : Int} : d ∈ dateRange s e ↔ s ≤ d ∧ d ≤ e := by
  unfold dateRange
  rw [List.mem_map]
  constructor
  · rintro ⟨i, hi, rfl⟩
    rw [List.mem_range] at hi
    omega
  · rintro ⟨h1, h2⟩
    refine ⟨(d - s).toNat, ?_, by omega⟩
    rw [List.mem_range]
    omega

theorem dateRange_length (s e : Int) : (dateRange s e).length = (e + 1 - s).toNat := by
  unfold dateRange
  rw [List.length_map, List.length_range]

theorem dateRange_nodup (s e : Int) : (dateRange s e).Nodup := by
  unfold dateRange
  refine List.Nodup.map ?_ (List.nodup_range _)
  intro i j h
  have h2 : s + (i : Int) = s + (j : Int) := h
  omega

/-! ### Lemmas about the attendance upsert -/

/-- Forward description of one upsert: every row of the result is either an
untouched old row at a different key, or carries the upserted key and
values. -/
theorem upsertAttendance_mem {att : List AttendanceDay} {emp : Nat} {d : Int}
    {st src : String} {g : Bool} {a : AttendanceDay}
    (h : a ∈ upsertAttendance att emp d st src g) :
    (a ∈ att ∧ ¬(a.employee_id = emp ∧ a.date = d)) ∨
      (a.employee_id = emp ∧ a.date = d ∧ a.status = st ∧
        a.source = some src ∧ a.geofence_ok = some g) := by
  unfold upsertAttendance at h
  by_cases hany : att.any (keyMatch emp d) = true
  · rw [if_pos hany, List.mem_map] at h
    obtain ⟨x, hx, rfl⟩ := h
    by_cases hk : keyMatch emp d x = true
    · right
      rw [if_pos hk]
      rcases (keyMatch_iff emp d x).mp hk with ⟨h1, h2⟩
      exact ⟨h1, h2, rfl, rfl, rfl⟩
    · left
      rw [if_neg hk]
      exact ⟨hx, fun hc => hk ((keyMatch_iff emp d x).mpr hc)⟩
  · rw [if_neg hany, List.mem_append, List.mem_singleton] at h
    rcases h with h | rfl
    · left
      refine ⟨h, fun hc => ?_⟩
      rw [List.any_eq_true] at hany
      exact hany ⟨a, h, (keyMatch_iff emp d a).mpr hc⟩
    · right
      exact ⟨rfl, rfl, rfl, rfl, rfl⟩

/-- After an upsert a row with the upserted key and values exists. -/
theorem upsertAttendance_exists (att : List AttendanceDay) (emp : Nat) (d : Int)
    (st src : String) (g : Bool) :
    ∃ a ∈ upsertAttendance att emp d st src g,
      a.employee_id = emp ∧ a.date = d ∧ a.status = st ∧
        a.source = some src ∧ a.geofence_ok = some g := by
  unfold upsertAttendance
  by_cases hany : att.any (keyMatch emp d) = true
  · rw [List.any_eq_true] at hany
    obtain ⟨x, hx, hk⟩ := hany
    rcases (keyMatch_iff emp d x).mp hk with ⟨h1, h2⟩
    refine ⟨{ x with status := st, source := some src, geofence_ok := some g },
      ?_, h1, h2, rfl, rfl, rfl⟩
    rw [if_pos (by rw [List.any_eq_true]; exact ⟨x, hx, hk⟩)]
    exact List.mem_map.mpr ⟨x, hx, by rw [if_pos hk]⟩
  · refine ⟨{ employee_id := emp, date := d, in_time := none, out_time := none,
               source := some src, geofence_ok := some g, status := st },
      ?_, rfl, rfl, rfl, rfl, rfl⟩
    rw [if_neg hany]
    exact List.mem_append.mpr (Or.inr (List.mem_singleton.mpr rfl))

/-- Rows at other keys are untouched by an upsert. -/
theorem upsertAttendance_frame {att : List AttendanceDay} {emp : Nat} {d : Int}
    (st src : String) (g : Bool) {a : AttendanceDay} (ha : a ∈ att)
    (hk : ¬(a.employee_id = emp ∧ a.date = d)) :
    a ∈ upsertAttendance att emp d st src g := by
  unfold upsertAttendance
  have hkb : keyMatch emp d a ≠ true := fun hc => hk ((keyMatch_iff emp d a).mp hc)
  by_cases hany : att.any (keyMatch emp d) = true
  · rw [if_pos hany]
    exact List.mem_map.mpr ⟨a, ha, by rw [if_neg hkb]⟩
  · rw [if_neg hany]
    exact List.mem_append.mpr (Or.inl ha)

/-- A row that already carries the upserted values survives any upsert with
those same values (possibly at a different key): its key and those values
persist. -/
theorem upsertAttendance_survive {att : List AttendanceDay} {a : AttendanceDay}
    (ha : a ∈ att) (emp : Nat) (d : Int) (st src : String) (g : Bool)
    (hst : a.status = st) (hsrc : a.source = some src) (hg : a.geofence_ok = some g) :
    ∃ b ∈ upsertAttendance att emp d st src g,
      b.employee_id = a.employee_id ∧ b.date = a.date ∧ b.status = st ∧
        b.source = some src ∧ b.geofence_ok = some g := by
  unfold upsertAttendance
  by_cases hany : att.any (keyMatch emp d) = true
  · rw [if_pos hany]
    by_cases hk : keyMatch emp d a = true
    · exact ⟨{ a with status := st, source := some src, geofence_ok := some g },
        List.mem_map.mpr ⟨a, ha, by rw [if_pos hk]⟩, rfl, rfl, rfl, rfl, rfl⟩
    · exact ⟨a, List.mem_map.mpr ⟨a, ha, by rw [if_neg hk]⟩, rfl, rfl, hst, hsrc, hg⟩
  · rw [if_neg hany]
    exact ⟨a, List.mem_append.mpr (Or.inl ha), rfl, rfl, hst, hsrc, hg⟩

/-- An upsert preserves the unique-index invariant: at most one row per
(employee, date). -/
theorem upsertAttendance_atMostOne {att : List AttendanceDay} (emp : Nat) (d : Int)
    (st src : String) (g : Bool) (h : atMostOnePerKey att) :
    atMostOnePerKey (upsertAttendance att emp d st src g) := by
  unfold upsertAttendance
  by_cases hany : att.any (keyMatch emp d) = true
  · rw [if_pos hany]
    unfold atMostOnePerKey at h ⊢
    rw [List.pairwise_map]
    refine h.imp ?_
    intro a b hab
    by_cases hka : keyMatch emp d a = true <;> by_cases hkb : keyMatch emp d b = true <;>
      simp only [hka, hkb, if_true, if_false] <;> exact hab
  · rw [if_neg hany]
    unfold atMostOnePerKey at h ⊢
    rw [List.pairwise_append]
    refine ⟨h, List.pairwise_singleton _ _, ?_⟩
    intro a ha b hb
    rw [List.mem_singleton] at hb
    subst hb
    intro hc
    rw [List.any_eq_true] at hany
    exact hany ⟨a, ha, (keyMatch_iff emp d a).mpr ⟨hc.1, hc.2⟩⟩

/-! ### Lemmas about the back-fill fold -/

/-- Folding upserts never disturbs the unique-index invariant. -/
theorem backfill_atMostOne {emp : Nat} :
    ∀ (ds : List Int) (att : List AttendanceDay),
      atMostOnePerKey att → atMostOnePerKey (backfill att emp ds)
  | [], _, h => h
  | d :: ds, _, h =>
    backfill_atMostOne ds _ (upsertAttendance_atMostOne emp d "leave" "web" true h)

/-- Forward description of the back-fill: every row of the result is either
an untouched old row whose key the fold never wrote, or carries a written
key together with the leave values. -/
theorem backfill_mem {emp : Nat} :
    ∀ (ds : List Int) (att : List AttendanceDay) (a : AttendanceDay),
      a ∈ backfill att emp ds →
      (a ∈ att ∧ ¬(a.employee_id = emp ∧ a.date ∈ ds)) ∨
        (a.employee_id = emp ∧ a.date ∈ ds ∧ a.status = "leave" ∧
          a.source = some "web" ∧ a.geofence_ok = some true)
  | [], _, _, h => Or.inl ⟨h, by simp⟩
  | d :: ds, att, a, h => by
    have h' := backfill_mem ds (upsertAttendance att emp d "leave" "web" true) a h
    rcases h' with ⟨hmem, hk⟩ | hgood
    · rcases upsertAttendance_mem hmem with ⟨hmem2, hk2⟩ | hgood2
      · left
        refine ⟨hmem2, ?_⟩
        rintro ⟨he, hd⟩
        rcases List.mem_cons.mp hd with rfl | hd2
        · exact hk2 ⟨he, rfl⟩
        · exact hk ⟨he, hd2⟩
      · right
        exact ⟨hgood2.1, List.mem_cons.mpr (Or.inl hgood2.2.1), hgood2.2.2.1,
          hgood2.2.2.2.1, hgood2.2.2.2.2⟩
    · right
      exact ⟨hgood.1, List.mem_cons.mpr (Or.inr hgood.2.1), hgood.2.2.1,
        hgood.2.2.2.1, hgood.2.2.2.2⟩

/-- A row that already carries the leave values survives the whole fold with
its key and those values intact. -/
theorem backfill_survive {emp : Nat} :
    ∀ (ds : List Int) (att : List AttendanceDay) (a : AttendanceDay),
      a ∈ att → a.status = "leave" → a.source = some "web" →
      a.geofence_ok = some true →
      ∃ b ∈ backfill att emp ds,
        b.employee_id = a.employee_id ∧ b.date = a.date ∧ b.status = "leave" ∧
          b.source = some "web" ∧ b.geofence_ok = some true
  | [], _, a, ha, h1, h2, h3 => ⟨a, ha, rfl, rfl, h1, h2, h3⟩
  | d :: ds, att, a, ha, h1, h2, h3 => by
    obtain ⟨b, hb, hb1, hb2, hb3, hb4, hb5⟩ :=
      upsertAttendance_survive ha emp d "leave" "web" true h1 h2 h3
    obtain ⟨c, hc, hc1, hc2, hc3, hc4, hc5⟩ := backfill_survive ds _ b hb hb3 hb4 hb5
    exact ⟨c, hc, hc1.trans hb1, hc2.trans hb2, hc3, hc4, hc5⟩

/-- Every written date ends up with a row carrying the written key and the
leave values. -/
theorem backfill_exists {emp : Nat} :
    ∀ (ds : List Int) (att : List AttendanceDay) (d : Int), d ∈ ds →
      ∃ a ∈ backfill att emp ds,
        a.employee_id = emp ∧ a.date = d ∧ a.status = "leave" ∧
          a.source = some "web" ∧ a.geofence_ok = some true
  | [], _, _, h => absurd h (by simp)
  | d0 :: ds, att, d, h => by
    rcases List.mem_cons.mp h with rfl | hd
    · obtain ⟨a, ha, h1, h2, h3, h4, h5⟩ :=
        upsertAttendance_exists att emp d "leave" "web" true
      obtain ⟨b, hb, hb1, hb2, hb3, hb4, hb5⟩ := backfill_survive ds _ a ha h3 h4 h5
      exact ⟨b, hb, hb1.trans h1, hb2.trans h2, hb3, hb4, hb5⟩
    · exact backfill_exists ds _ d hd

/-- Rows at keys the fold never writes pass through untouched. -/
theorem backfill_frame {emp : Nat} :
    ∀ (ds : List Int) (att : List AttendanceDay) (a : AttendanceDay),
      a ∈ att → ¬(a.employee_id = emp ∧ a.date ∈ ds) →
      a ∈ backfill att emp ds
  | [], _, _, ha, _ => ha
  | d :: ds, att, a, ha, hk => by
    refine backfill_frame ds _ a ?_ ?_
    · refine upsertAttendance_frame _ _ _ ha ?_
      rintro ⟨he, hd⟩
      exact hk ⟨he, List.mem_cons.mpr (Or.inl hd)⟩
    · rintro ⟨he, hd⟩
      exact hk ⟨he, List.mem_cons.mpr (Or.inr hd)⟩

/-! ### Lemmas about the decision transaction -/

@[simp] theorem lowerString_approved : lowerString "approved" = "approved" := by decide

@[simp] theorem lowerString_rejected : lowerString "rejected" = "rejected" := by decide

/-- The locked `SELECT` returns a row that is in the table, has the requested
id and is still `pending`. -/
theorem findPending_spec {l : List Leave} {id : Nat} {leave : Leave}
    (h : findPending l id = some leave) :
    leave ∈ l ∧ leave.id = id ∧ leave.status = "pending" := by
  unfold findPending at h
  have hm := List.mem_of_find?_eq_some h
  have hp := List.find?_some h
  rw [Bool.and_eq_true, beq_iff_eq, beq_iff_eq] at hp
  exact ⟨hm, hp.1, hp.2⟩

/-- After the status update wrote a terminal status, the locked `SELECT`
finds no `pending` row with that id any more. -/
theorem findPending_map_setDecided {l : List Leave} {id approver : Nat}
    {s : String} (hs : s ≠ "pending") :
    findPending (l.map (setDecided id s approver)) id = none := by
  unfold findPending
  rw [List.find?_eq_none]
  intro x hx
  rw [List.mem_map] at hx
  obtain ⟨y, hy, rfl⟩ := hx
  unfold setDecided
  by_cases h : y.id = id
  · rw [if_pos h]
    simp [hs]
  · rw [if_neg h]
    simp [h]

/-- Evaluation of the decision route on an `approved` decision whose locked
`SELECT` finds a pending row and whose attendance statement succeeds. -/
theorem decideTx_approved {db : DB} {id approver : Nat} {leave : Leave}
    (hf : findPending db.leaves id = some leave) :
    decideTx db id "approved" approver true =
      ({ leaves := db.leaves.map (setDecided id "approved" approver),
         attendance := backfill db.attendance leave.employee_id
           (dateRange leave.start_date leave.end_date) },
       Except.ok "approved") := by
  simp [decideTx, hf]

/-- Evaluation of the decision route on a `rejected` decision whose locked
`SELECT` finds a pending row; the attendance statement is never reached. -/
theorem decideTx_rejected {db : DB} {id approver : Nat} {leave : Leave}
    (attOk : Bool) (hf : findPending db.leaves id = some leave) :
    decideTx db id "rejected" approver attOk =
      ({ leaves := db.leaves.map (setDecided id "rejected" approver),
         attendance := db.attendance },
       Except.ok "rejected") := by
  simp [decideTx, hf]

/-- Evaluation: approved decision, pending row found, attendance statement
fails — the transaction rolls back. -/
theorem decideTx_approved_attFail {db : DB} {id approver : Nat} {status : String}
    (happ : lowerString status = "approved") {leave : Leave}
    (hf : findPending db.leaves id = some leave) :
    decideTx db id status approver false =
      (db, Except.error "Failed to update leave") := by
  simp [decideTx, happ, hf]

/-- Evaluation: approved decision, pending row found, attendance statement
succeeds. -/
theorem decideTx_approved_eval {db : DB} {id approver : Nat} {status : String}
    (happ : lowerString status = "approved") {leave : Leave}
    (hf : findPending db.leaves id = some leave) :
    decideTx db id status approver true =
      ({ leaves := db.leaves.map (setDecided id "approved" approver),
         attendance := backfill db.attendance leave.employee_id
           (dateRange leave.start_date leave.end_date) },
       Except.ok "approved") := by
  simp [decideTx, happ, hf]

/-- Evaluation: rejected decision, pending row found; the attendance
statement is never reached. -/
theorem decideTx_rejected_eval {db : DB} {id approver : Nat} {status : String}
    (hrej : lowerString status = "rejected") {leave : Leave}
    (hf : findPending db.leaves id = some leave) (attOk : Bool) :
    decideTx db id status approver attOk =
      ({ leaves := db.leaves.map (setDecided id "rejected" approver),
         attendance := db.attendance },
       Except.ok "rejected") := by
  simp [decideTx, hrej, hf]

/-- Evaluation: valid decision but no pending row with that id. -/
theorem decideTx_notfound_eval {db : DB} {id approver : Nat} {status : String}
    (hval : lowerString status = "approved" ∨ lowerString status = "rejected")
    (hf : findPending db.leaves id = none) (attOk : Bool) :
    decideTx db id status approver attOk =
      (db, Except.error "Leave not found or already processed") := by
  rcases hval with hv | hv <;> simp [decideTx, hv, hf]

/-- Evaluation: invalid requested status. -/
theorem decideTx_invalid_eval {db : DB} {id approver : Nat} {status : String}
    (hval : ¬(lowerString status = "approved" ∨ lowerString status = "rejected"))
    (attOk : Bool) :
    decideTx db id status approver attOk =
      (db, Except.error "status must be approved or rejected") := by
  simp [decideTx, hval]

/-- Every error path of the decision route rolls the transaction back: the
observable state is the input state. -/
theorem decideTx_error_state {db : DB} {id approver : Nat} {status : String}
    {attOk : Bool} {e : String}
    (h : (decideTx db id status approver attOk).2 = Except.error e) :
    (decideTx db id status approver attOk).1 = db := by
  by_cases hval : lowerString status = "approved" ∨ lowerString status = "rejected"
  · cases hsome : findPending db.leaves id with
    | none => rw [decideTx_notfound_eval hval hsome]
    | some leave =>
      by_cases happ : lowerString status = "approved"
      · cases attOk with
        | false => rw [decideTx_approved_attFail happ hsome]
        | true => rw [decideTx_approved_eval happ hsome] at h; simp at h
      · have hrej : lowerString status = "rejected" := by tauto
        rw [decideTx_rejected_eval hrej hsome attOk] at h
        simp at h
  · rw [decideTx_invalid_eval hval]

/-- Characterization of every successful run of the decision route: the
requested status was valid, a pending row was found and updated, and the
attendance ledger was back-filled exactly on approval. -/
theorem decideTx_ok {db : DB} {id approver : Nat} {status : String}
    {attOk : Bool} {db' : DB} {r : String}
    (h : decideTx db id status approver attOk = (db', Except.ok r)) :
    (r = "approved" ∨ r = "rejected") ∧ r = lowerString status ∧
      ∃ leave, findPending db.leaves id = some leave ∧
        db'.leaves = db.leaves.map (setDecided id r approver) ∧
        ((r = "approved" ∧ attOk = true ∧
            db'.attendance = backfill db.attendance leave.employee_id
              (dateRange leave.start_date leave.end_date)) ∨
          (r = "rejected" ∧ db'.attendance = db.attendance)) := by
  by_cases hval : lowerString status = "approved" ∨ lowerString status = "rejected"
  · cases hsome : findPending db.leaves id with
    | none =>
      rw [decideTx_notfound_eval hval hsome] at h
      simp at h
    | some leave =>
      by_cases happ : lowerString status = "approved"
      · cases attOk with
        | false =>
          rw [decideTx_approved_attFail happ hsome] at h
          simp at h
        | true =>
          rw [decideTx_approved_eval happ hsome] at h
          injection h with h1 h2
          injection h2 with h2
          subst h2
          subst h1
          exact ⟨Or.inl rfl, happ.symm, leave, rfl, rfl, Or.inl ⟨rfl, rfl, rfl⟩⟩
      · have hrej : lowerString status = "rejected" := by tauto
        rw [decideTx_rejected_eval hrej hsome attOk] at h
        injection h with h1 h2
        injection h2 with h2
        subst h2
        subst h1
        exact ⟨Or.inr rfl, hrej.symm, leave, rfl, rfl, Or.inr ⟨rfl, rfl⟩⟩
  · rw [decideTx_invalid_eval hval] at h
    simp at h

/-! ### Lemmas about the intended balance derivation -/

theorem usedDays_nil (emp : Nat) (t : String) (ys : Int) :
    usedDays [] emp t ys = 0 := rfl

theorem usedDays_append (l1 l2 : List Leave) (emp : Nat) (t : String) (ys : Int) :
    usedDays (l1 ++ l2) emp t ys = usedDays l1 emp t ys + usedDays l2 emp t ys := by
  unfold usedDays
  rw [List.filter_append, List.map_append, List.sum_append]

theorem usedDays_cons (x : Leave) (l : List Leave) (emp : Nat) (t : String) (ys : Int) :
    usedDays (x :: l) emp t ys =
      (if x.employee_id == emp && x.status == "approved" && x.type == t &&
          decide (ys ≤ x.start_date) then leaveDays x else 0)
        + usedDays l emp t ys := by
  unfold usedDays
  rw [List.filter_cons]
  by_cases hb : (x.employee_id == emp && x.status == "approved" && x.type == t &&
      decide (ys ≤ x.start_date)) = true
  · rw [if_pos hb, if_pos hb, List.map_cons, List.sum_cons]
  · rw [if_neg hb, if_neg hb, zero_add]

theorem setDecided_noop {id : Nat} {s : String} {approver : Nat} {x : Leave}
    (h : x.id ≠ id) : setDecided id s approver x = x := by
  unfold setDecided
  rw [if_neg h]

/-! ### Idempotence of the attendance upsert -/

theorem keyMatch_update (emp : Nat) (d : Int) (a : AttendanceDay)
    (st src : String) (g : Bool) (hk : keyMatch emp d a = true) :
    keyMatch emp d
      { a with status := st, source := some src, geofence_ok := some g } = true := by
  rcases (keyMatch_iff emp d a).mp hk with ⟨h1, h2⟩
  exact (keyMatch_iff emp d _).mpr ⟨h1, h2⟩

theorem upsertAttendance_idem (att : List AttendanceDay) (emp : Nat) (d : Int)
    (st src : String) (g : Bool) :
    upsertAttendance (upsertAttendance att emp d st src g) emp d st src g =
      upsertAttendance att emp d st src g := by
  unfold upsertAttendance
  by_cases hany : att.any (keyMatch emp d) = true
  · rw [if_pos hany]
    have hany2 : (att.map fun a => if keyMatch emp d a then
        { a with status := st, source := some src, geofence_ok := some g }
        else a).any (keyMatch emp d) = true := by
      rw [List.any_eq_true] at hany ⊢
      obtain ⟨x, hx, hk⟩ := hany
      refine ⟨if keyMatch emp d x then
        { x with status := st, source := some src, geofence_ok := some g }
        else x, List.mem_map.mpr ⟨x, hx, rfl⟩, ?_⟩
      rw [if_pos hk]
      exact keyMatch_update emp d x st src g hk
    rw [if_pos hany2, List.map_map]
    refine List.map_congr_left ?_
    intro a _
    simp only [Function.comp]
    by_cases hk : keyMatch emp d a = true
    · rw [if_pos hk, if_pos (keyMatch_update emp d a st src g hk)]
    · rw [if_neg hk, if_neg hk]
  · rw [if_neg hany]
    set w : AttendanceDay :=
      { employee_id := emp, date := d, in_time := none, out_time := none,
        source := some src, geofence_ok := some g, status := st } with hwdef
    have hw : keyMatch emp d w = true := (keyMatch_iff emp d _).mpr ⟨rfl, rfl⟩
    have hany2 : ((att ++ [w]).any (keyMatch emp d)) = true := by
      rw [List.any_eq_true]
      exact ⟨w, List.mem_append.mpr (Or.inr (List.mem_singleton.mpr rfl)), hw⟩
    have hnone : ∀ x ∈ att, ¬ keyMatch emp d x = true := by
      rw [Bool.not_eq_true] at hany
      exact fun x hx => by
        rw [List.any_eq_false] at hany
        exact hany x hx
    rw [if_pos hany2, List.map_append]
    have e1 : (att.map fun a => if keyMatch emp d a then { a with status := st, source := some src, geofence_ok := some g } else a) = att := by
      rw [List.map_congr_left fun a ha => if_neg (hnone a ha)]
      exact List.map_id' att
    rw [e1]
    congr 1
    rw [List.map_singleton, if_pos hw]

/-- Counting the back-filled rows: with the unique index in force and a
nonempty range, the employee's rows dated within `[s, e]` afterwards number
exactly `e - s + 1`. -/
theorem backfill_count {att : List AttendanceDay} {emp : Nat} {s e : Int}
    (hinv : atMostOnePerKey att) (hse : s ≤ e) :
    (((backfill att emp (dateRange s e)).filter fun a =>
        a.employee_id == emp && decide (s ≤ a.date) && decide (a.date ≤ e)).length : Int)
      = e - s + 1 := by
  set att' := backfill att emp (dateRange s e) with hatt'
  set F := att'.filter (fun a =>
    a.employee_id == emp && decide (s ≤ a.date) && decide (a.date ≤ e)) with hF
  have hmemF : ∀ a ∈ F, a.employee_id = emp ∧ s ≤ a.date ∧ a.date ≤ e := by
    intro a ha
    rw [hF, List.mem_filter] at ha
    obtain ⟨-, hb⟩ := ha
    simp only [Bool.and_eq_true, beq_iff_eq, decide_eq_true_eq] at hb
    exact ⟨hb.1.1, hb.1.2, hb.2⟩
  have hinv' : atMostOnePerKey att' := backfill_atMostOne _ _ hinv
  have hpairF : F.Pairwise
      fun a b => ¬(a.employee_id = b.employee_id ∧ a.date = b.date) :=
    hinv'.sublist (List.filter_sublist att')
  have hnodupD : (F.map fun a => a.date).Nodup := by
    unfold List.Nodup
    rw [List.pairwise_map]
    refine List.Pairwise.imp_of_mem ?_ hpairF
    intro a b ha hb hR hdate
    exact hR ⟨(hmemF a ha).1.trans (hmemF b hb).1.symm, hdate⟩
  have hmemD : ∀ d : Int, (d ∈ F.map fun a => a.date) ↔ d ∈ dateRange s e := by
    intro d
    rw [List.mem_map, mem_dateRange]
    constructor
    · rintro ⟨a, ha, rfl⟩
      exact ⟨(hmemF a ha).2.1, (hmemF a ha).2.2⟩
    · rintro ⟨h1, h2⟩
      obtain ⟨a, ha, he, hd, -, -, -⟩ :=
        backfill_exists (dateRange s e) att d (mem_dateRange.mpr ⟨h1, h2⟩)
      refine ⟨a, ?_, hd⟩
      rw [hF, List.mem_filter]
      refine ⟨ha, ?_⟩
      simp [he, hd, h1, h2]
  have hlen : (F.map fun a => a.date).length = (dateRange s e).length :=
    ((List.perm_ext_iff_of_nodup hnodupD (dateRange_nodup s e)).mpr hmemD).length_eq
  rw [List.length_map] at hlen
  rw [hlen, dateRange_length]
  omega

/-! ### Lemmas about the payroll month bucket counts -/

/-- Membership in the month selection: exactly the employee's rows whose
date lies in the half-open interval `[mStart, mEnd)`. -/
theorem mem_monthRows {att : List AttendanceDay} {emp : Nat} {mStart mEnd : Int}
    {a : AttendanceDay} :
    a ∈ monthRows att emp mStart mEnd ↔
      a ∈ att ∧ a.employee_id = emp ∧ mStart ≤ a.date ∧ a.date < mEnd := by
  unfold monthRows
  rw [List.mem_filter]
  simp [and_assoc]

/-- Pointwise bucket accounting: the three bucket counts of any row list add
up to the number of rows whose status is one of the three counted ones. -/
theorem count3_eq (l : List AttendanceDay) :
    (l.filter fun a => a.status == "present").length +
      (l.filter fun a => a.status == "leave").length +
      (l.filter fun a => a.status == "absent").length =
    (l.filter fun a =>
      a.status == "present" || a.status == "leave" || a.status == "absent").length := by
  induction l with
  | nil => rfl
  | cons a l ih =>
    rw [List.filter_cons, List.filter_cons, List.filter_cons, List.filter_cons]
    by_cases h1 : a.status = "present"
    · simp only [h1]
      simp only [show (("present" : String) == "present") = true from rfl,
        show (("present" : String) == "leave") = false from rfl,
        show (("present" : String) == "absent") = false from rfl]
      simp only [Bool.false_eq_true, if_false, if_true, Bool.true_or,
        List.length_cons]
      omega
    · by_cases h2 : a.status = "leave"
      · simp only [h2]
        simp only [show (("leave" : String) == "present") = false from rfl,
          show (("leave" : String) == "leave") = true from rfl,
          show (("leave" : String) == "absent") = false from rfl]
        simp only [Bool.false_eq_true, if_false, if_true, Bool.false_or,
          Bool.true_or, List.length_cons]
        omega
      · by_cases h3 : a.status = "absent"
        · simp only [h3]
          simp only [show (("absent" : String) == "present") = false from rfl,
            show (("absent" : String) == "leave") = false from rfl,
            show (("absent" : String) == "absent") = true from rfl]
          simp only [Bool.false_eq_true, if_false, if_true, Bool.false_or,
            List.length_cons]
          omega
        · have b1 : (a.status == "present") = false := by
            simpa using h1
          have b2 : (a.status == "leave") = false := by
            simpa using h2
          have b3 : (a.status == "absent") = false := by
            simpa using h3
          simp only [b1, b2, b3, Bool.false_eq_true, if_false, Bool.false_or]
          omega

/-! ### Lemmas about the payable formula -/

/-- The implemented payable formula is exactly the specified one, with the
fixed working-day constant. -/
theorem payableSalary_eq_spec (base : Rat) (presents leaves : Nat) :
    payableSalary base presents leaves =
      payableSpecFormula base presents leaves WORKING_DAYS := by
  unfold payableSalary payableSpecFormula jsRound
  rw [mul_div_assoc]

/-! ### Concrete fixtures used by witnesses and counterexamples -/

/-- A pending three-day casual leave request. -/
def leaveA : Leave :=
  { id := 1, employee_id := 4, type := "CL", start_date := 10, end_date := 12,
    reason := some "trip", status := "pending", approver_id := none,
    created_at := 0 }

/-- An existing punch row inside the request's range. -/
def attA : AttendanceDay :=
  { employee_id := 4, date := 11, in_time := some 9, out_time := some 17,
    source := some "gps", geofence_ok := some true, status := "present" }

/-- A small database: one pending request, one punch row. -/
def db0 : DB := { leaves := [leaveA], attendance := [attA] }

/-- The state after approving the pending request of `db0`. -/
def db1c : DB := (decideTx db0 1 "approved" 7 true).1

/-- The state after rejecting the pending request of `db0`. -/
def dbRejc : DB := (decideTx db0 1 "rejected" 7 true).1

/-- A work-from-home attendance row; the schema allows status `wfh`. -/
def attWfh : AttendanceDay :=
  { employee_id := 4, date := 5, in_time := none, out_time := none,
    source := some "web", geofence_ok := some true, status := "wfh" }

/-- An approved 13-day casual leave, enough to overdraw the 12-day CL
allocation. -/
def bigLeave : Leave :=
  { id := 3, employee_id := 5, type := "CL", start_date := 20, end_date := 32,
    reason := none, status := "approved", approver_id := some 7,
    created_at := 0 }

/-- The overdrawn balance row the balance query reports for `bigLeave`. -/
def rowCLneg : BalanceRow :=
  { type := "CL", allocated := 12, used := 13, remaining := -1 }

/-! ### Claim theorems -/

/-- C1: if a `decide` call on a request succeeds, then a second `decide`
call on the same request id — any decision, any attendance outcome — fails
with the not-found error and leaves the state exactly as the first call left
it, so the request, balances and attendance are mutated exactly once in
total.  The row lock (`SELECT ... FOR UPDATE`) serializes concurrent calls,
so the two sequential orders modelled here cover the concurrent case. -/
theorem C1_decide_twice (db db1 : DB) (id approver1 approver2 : Nat)
    (status1 status2 r : String) (attOk1 attOk2 : Bool)
    (hval2 : lowerString status2 = "approved" ∨ lowerString status2 = "rejected")
    (h1 : decideTx db id status1 approver1 attOk1 = (db1, Except.ok r)) :
    decideTx db1 id status2 approver2 attOk2 =
      (db1, Except.error "Leave not found or already processed") := by
  obtain ⟨hror, -, leave, hfind, hleaves, -⟩ := decideTx_ok h1
  have hnone : findPending db1.leaves id = none := by
    rw [hleaves]
    refine findPending_map_setDecided ?_
    rcases hror with h | h <;> rw [h] <;> decide
  exact decideTx_notfound_eval hval2 hnone attOk2

/-- C1 witness: approving the pending request of `db0` succeeds; rejecting
it afterwards fails with the not-found error and changes nothing. -/
theorem C1_witness :
    decideTx db1c 1 "rejected" 8 true =
      (db1c, Except.error "Leave not found or already processed") :=
  C1_decide_twice db0 db1c 1 7 8 "approved" "rejected" "approved" true true
    (by decide) (by decide)

/-- C2: the decision transaction is all-or-nothing.  If the attendance
statement fails on an approval, the already-issued status update is rolled
back (first conjunct); and in general every observable outcome either equals
the input state or is a state in which the pending row was found, the
response reports success, the row carries the terminal status and approver,
and — on approval — every date of the range is back-filled with a `leave`
row.  A state with the request approved but attendance not back-filled is
never observable. -/
theorem C2_atomicity (db : DB) (id approver : Nat) (status : String)
    (attOk : Bool) :
    ((lowerString status = "approved" ∧ attOk = false) →
      (decideTx db id status approver attOk).1 = db) ∧
    ((decideTx db id status approver attOk).1 = db ∨
      (∃ leave, findPending db.leaves id = some leave ∧
        (decideTx db id status approver attOk).2 =
          Except.ok (lowerString status) ∧
        (∀ x ∈ (decideTx db id status approver attOk).1.leaves,
          x.id = id →
            x.status = lowerString status ∧ x.approver_id = some approver) ∧
        (lowerString status = "approved" →
          ∀ d : Int, leave.start_date ≤ d → d ≤ leave.end_date →
            ∃ a ∈ (decideTx db id status approver attOk).1.attendance,
              a.employee_id = leave.employee_id ∧ a.date = d ∧
                a.status = "leave"))) := by
  constructor
  · rintro ⟨happ, rfl⟩
    cases hsome : findPending db.leaves id with
    | none => rw [decideTx_notfound_eval (Or.inl happ) hsome]
    | some leave => rw [decideTx_approved_attFail happ hsome]
  · cases hr : (decideTx db id status approver attOk).2 with
    | error e => exact Or.inl (decideTx_error_state hr)
    | ok r =>
      have h : decideTx db id status approver attOk =
          ((decideTx db id status approver attOk).1, Except.ok r) := by
        rw [← hr]
      obtain ⟨hror, hrs, leave, hfind, hleaves, hattor⟩ := decideTx_ok h
      refine Or.inr ⟨leave, hfind, ?_, ?_, ?_⟩
      · rw [hrs]
      · intro x hx hxid
        rw [hleaves, List.mem_map] at hx
        obtain ⟨y, hy, rfl⟩ := hx
        unfold setDecided at hxid ⊢
        by_cases hyid : y.id = id
        · rw [if_pos hyid]
          exact ⟨hrs ▸ rfl, rfl⟩
        · rw [if_neg hyid] at hxid
          exact absurd hxid hyid
      · intro happ d hd1 hd2
        have hra : r = "approved" := by rw [hrs, happ]
        rcases hattor with ⟨-, -, hatt⟩ | ⟨hrej, -⟩
        · rw [hatt]
          obtain ⟨a, ha, h1, h2, h3, -, -⟩ :=
            backfill_exists _ db.attendance d (mem_dateRange.mpr ⟨hd1, hd2⟩)
          exact ⟨a, ha, h1, h2, h3⟩
        · rw [hra] at hrej
          exact absurd hrej (by decide)

/-- C2 witness: the atomicity statement instantiated on the concrete
database `db0`. -/
theorem C2_witness :
    ((lowerString "approved" = "approved" ∧ false = false) →
      (decideTx db0 1 "approved" 7 false).1 = db0) ∧
    ((decideTx db0 1 "approved" 7 false).1 = db0 ∨
      (∃ leave, findPending db0.leaves 1 = some leave ∧
        (decideTx db0 1 "approved" 7 false).2 =
          Except.ok (lowerString "approved") ∧
        (∀ x ∈ (decideTx db0 1 "approved" 7 false).1.leaves,
          x.id = 1 →
            x.status = lowerString "approved" ∧ x.approver_id = some 7) ∧
        (lowerString "approved" = "approved" →
          ∀ d : Int, leave.start_date ≤ d → d ≤ leave.end_date →
            ∃ a ∈ (decideTx db0 1 "approved" 7 false).1.attendance,
              a.employee_id = leave.employee_id ∧ a.date = d ∧
                a.status = "leave"))) :=
  C2_atomicity db0 1 7 "approved" false

/-- C3: approving a pending request with `start ≤ end` succeeds and, in the
resulting state, every date of the inclusive range carries a `leave` row for
the employee with source `web` and a valid geofence flag, any pre-existing
row at such a key was overwritten to `leave` regardless of its prior status,
the (employee, date) unique index still holds, and the employee has exactly
`end - start + 1` rows dated inside the range. -/
theorem C3_approval_backfill (db : DB) (id approver : Nat) (leave : Leave)
    (hf : findPending db.leaves id = some leave)
    (hse : leave.start_date ≤ leave.end_date)
    (hinv : atMostOnePerKey db.attendance) :
    ∃ db', decideTx db id "approved" approver true = (db', Except.ok "approved") ∧
      (∀ d : Int, leave.start_date ≤ d → d ≤ leave.end_date →
        ∃ a ∈ db'.attendance, a.employee_id = leave.employee_id ∧ a.date = d ∧
          a.status = "leave" ∧ a.source = some "web" ∧
          a.geofence_ok = some true) ∧
      (∀ a ∈ db'.attendance, a.employee_id = leave.employee_id →
        leave.start_date ≤ a.date → a.date ≤ leave.end_date →
          a.status = "leave") ∧
      atMostOnePerKey db'.attendance ∧
      ((db'.attendance.filter fun a => a.employee_id == leave.employee_id &&
          decide (leave.start_date ≤ a.date) &&
          decide (a.date ≤ leave.end_date)).length : Int)
        = leave.end_date - leave.start_date + 1 := by
  refine ⟨_, decideTx_approved_eval lowerString_approved hf, ?_, ?_, ?_, ?_⟩
  · intro d hd1 hd2
    obtain ⟨a, ha, h1, h2, h3, h4, h5⟩ :=
      backfill_exists _ db.attendance d (mem_dateRange.mpr ⟨hd1, hd2⟩)
    exact ⟨a, ha, h1, h2, h3, h4, h5⟩
  · intro a ha hemp hd1 hd2
    rcases backfill_mem _ db.attendance a ha with ⟨-, hk⟩ | hgood
    · exact absurd ⟨hemp, mem_dateRange.mpr ⟨hd1, hd2⟩⟩ hk
    · exact hgood.2.2.1
  · exact backfill_atMostOne _ _ hinv
  · exact backfill_count hinv hse

/-- C3 witness: approving the three-day request of `db0` back-fills its
range. -/
theorem C3_witness :
    ∃ db', decideTx db0 1 "approved" 7 true = (db', Except.ok "approved") ∧
      (∀ d : Int, leaveA.start_date ≤ d → d ≤ leaveA.end_date →
        ∃ a ∈ db'.attendance, a.employee_id = leaveA.employee_id ∧ a.date = d ∧
          a.status = "leave" ∧ a.source = some "web" ∧
          a.geofence_ok = some true) ∧
      (∀ a ∈ db'.attendance, a.employee_id = leaveA.employee_id →
        leaveA.start_date ≤ a.date → a.date ≤ leaveA.end_date →
          a.status = "leave") ∧
      atMostOnePerKey db'.attendance ∧
      ((db'.attendance.filter fun a => a.employee_id == leaveA.employee_id &&
          decide (leaveA.start_date ≤ a.date) &&
          decide (a.date ≤ leaveA.end_date)).length : Int)
        = leaveA.end_date - leaveA.start_date + 1 :=
  C3_approval_backfill db0 1 7 leaveA (by decide) (by decide) (by decide)

/-- C4 (code bug): the claim talks about the used count *reported* for an
(employee, category) pair after a `decide`, but the code never reports one —
the balance route answers the 500 error on every database state, before and
after any decision, because its SQL fails PostgreSQL function resolution
(see `leaveBalanceRoute`).  Concretely: approving the pending three-day
request of `db0` succeeds, yet the balance route errors identically on the
state before and on the state after the approval. -/
theorem C4_used_count_unreachable :
    (∀ (l : List Leave) (emp : Nat) (ys : Int),
      leaveBalanceRoute l emp ys = Except.error "Failed to fetch balances") ∧
    (decideTx db0 1 "approved" 7 true).2 = Except.ok "approved" ∧
    leaveBalanceRoute db0.leaves 4 0 =
      Except.error "Failed to fetch balances" ∧
    leaveBalanceRoute (decideTx db0 1 "approved" 7 true).1.leaves 4 0 =
      Except.error "Failed to fetch balances" :=
  ⟨fun _ _ _ => rfl, by decide, rfl, rfl⟩

/-- C5: the payable amount is computed by exactly the specified formula —
`round(base * max(0, presents + leaves) / workingDaysPerMonth)` with the
fixed constant 26 and half-up rounding `⌊x + 1/2⌋` — and on the spec's
scenario (base 30000, 24 present and 2 leave days) it yields 30000.  The
tie case 101 · 13/26 = 50.5 rounds up to 51, pinning the half-up rule, and
the last two conjuncts show the ratio is not clamped at 1.0: with 27 counted
days the payable amount exceeds the base. -/
theorem C5_payable_formula :
    (∀ (base : Rat) (p l : Nat),
      payableSalary base p l = payableSpecFormula base p l WORKING_DAYS) ∧
    WORKING_DAYS = 26 ∧
    payableSalary 30000 24 2 = 30000 ∧
    payableSalary 101 13 0 = 51 ∧
    payableSalary 30000 27 0 = 31154 ∧
    30000 < payableSalary 30000 27 0 := by
  refine ⟨payableSalary_eq_spec, rfl, ?_, ?_, ?_, ?_⟩ <;>
    norm_num [payableSalary, jsRound, WORKING_DAYS]

/-- C6 counterexample: a `wfh` row (allowed by the schema comment
`present | absent | leave | wfh`) lies inside the month interval yet is
counted in none of the three buckets, so not every selected row contributes
to exactly one bucket. -/
theorem C6_counterexample :
    (monthRows [attWfh] 4 1 31).length = 1 ∧
    statusCount [attWfh] 4 1 31 "present" + statusCount [attWfh] 4 1 31 "leave" +
      statusCount [attWfh] 4 1 31 "absent" = 0 := by
  decide

/-- C6 amended: the payroll summary selects precisely the employee's rows in
the half-open month interval `[mStart, mEnd)`, and the three bucket counts
add up to the number of selected rows whose status is `present`, `leave` or
`absent` — rows with any other status (such as `wfh`), like dates with no
row at all, contribute to no bucket. -/
theorem C6_amended (att : List AttendanceDay) (emp : Nat) (mStart mEnd : Int) :
    (∀ a : AttendanceDay, a ∈ monthRows att emp mStart mEnd ↔
      a ∈ att ∧ a.employee_id = emp ∧ mStart ≤ a.date ∧ a.date < mEnd) ∧
    statusCount att emp mStart mEnd "present" +
      statusCount att emp mStart mEnd "leave" +
      statusCount att emp mStart mEnd "absent" =
      ((monthRows att emp mStart mEnd).filter fun a =>
        a.status == "present" || a.status == "leave" ||
          a.status == "absent").length := by
  refine ⟨fun a => mem_monthRows, ?_⟩
  unfold statusCount
  exact count3_eq _

/-- C7 counterexample: submitting a request with start 5 and end 3 does not
fail — it succeeds and creates a pending request whose start date exceeds
its end date. -/
theorem C7_counterexample :
    (applyLeave { leaves := [], attendance := [] } 4 (some "CL") (some 5)
        (some 3) none 9 0).2 = Except.ok 9 ∧
    ∃ l ∈ (applyLeave { leaves := [], attendance := [] } 4 (some "CL") (some 5)
        (some 3) none 9 0).1.leaves,
      l.status = "pending" ∧ l.start_date > l.end_date := by
  decide

/-- C7 amended: the submission route rejects a request exactly when `type`,
`start_date` or `end_date` is missing; whenever all three are present — even
with `start > end` — it succeeds, appends exactly one new `pending` request,
and leaves attendance and every derived balance unchanged. -/
theorem C7_amended (db : DB) (empId : Nat) (t : String) (s e : Int)
    (reason : Option String) (newId createdAt : Nat) :
    (applyLeave db empId (some t) (some s) (some e) reason newId createdAt).2 =
      Except.ok newId ∧
    (applyLeave db empId (some t) (some s) (some e) reason newId createdAt).1.leaves =
      db.leaves ++
        [{ id := newId, employee_id := empId, type := t, start_date := s,
           end_date := e, reason := reason, status := "pending",
           approver_id := none, created_at := createdAt }] ∧
    (applyLeave db empId (some t) (some s) (some e) reason newId createdAt).1.attendance =
      db.attendance ∧
    (∀ (emp2 : Nat) (t2 : String) (ys2 : Int),
      usedDays (applyLeave db empId (some t) (some s) (some e) reason newId
        createdAt).1.leaves emp2 t2 ys2 = usedDays db.leaves emp2 t2 ys2) ∧
    (applyLeave db empId none (some s) (some e) reason newId createdAt).2 =
      Except.error "type, start_date, end_date required" ∧
    (applyLeave db empId (some t) none (some e) reason newId createdAt).2 =
      Except.error "type, start_date, end_date required" ∧
    (applyLeave db empId (some t) (some s) none reason newId createdAt).2 =
      Except.error "type, start_date, end_date required" := by
  refine ⟨rfl, rfl, rfl, ?_, rfl, rfl, rfl⟩
  intro emp2 t2 ys2
  show usedDays (db.leaves ++ [_]) emp2 t2 ys2 = usedDays db.leaves emp2 t2 ys2
  rw [usedDays_append, usedDays_cons, usedDays_nil]
  simp

/-- C8: the attendance upsert is idempotent — performing it twice with
identical arguments produces exactly the list a single call produces — and
it preserves the unique-index invariant, so at most one row per
(employee, date) key ever exists. -/
theorem C8_upsert_idempotent (att : List AttendanceDay) (emp : Nat) (d : Int)
    (st src : String) (g : Bool) :
    upsertAttendance (upsertAttendance att emp d st src g) emp d st src g =
      upsertAttendance att emp d st src g ∧
    (atMostOnePerKey att → atMostOnePerKey (upsertAttendance att emp d st src g)) :=
  ⟨upsertAttendance_idem att emp d st src g,
   upsertAttendance_atMostOne emp d st src g⟩

/-- C8 witness: upserting a leave day twice over the punch row of `attA`
equals upserting it once, and the unique index survives. -/
theorem C8_witness :
    upsertAttendance (upsertAttendance [attA] 4 11 "leave" "web" true) 4 11
        "leave" "web" true =
      upsertAttendance [attA] 4 11 "leave" "web" true ∧
    atMostOnePerKey (upsertAttendance [attA] 4 11 "leave" "web" true) :=
  ⟨(C8_upsert_idempotent [attA] 4 11 "leave" "web" true).1,
   (C8_upsert_idempotent [attA] 4 11 "leave" "web" true).2 (by decide)⟩

/-- C9 (code bug): the balance route never returns the claimed
`{allocated, used, remaining}` rows — it answers the 500 error on every
database state, because the SQL's `DATE_PART('day', end_date - start_date)`
fails PostgreSQL function resolution on `DATE` columns (see
`leaveBalanceRoute`).  The route's own dead row mapping embodies exactly the
claimed arithmetic — `remaining = allocated - used`, unclamped, a negative
remaining being an ordinary row (the overdrawn CL example) — which shows the
claim matches the code's intent while the code's query is a slip. -/
theorem C9_balance_unreachable (l : List Leave) (emp : Nat) (ys : Int) :
    leaveBalanceRoute l emp ys = Except.error "Failed to fetch balances" ∧
    (∀ r ∈ leaveBalance l emp ys,
      r.remaining = r.allocated - r.used ∧
        r.used = usedDays l emp r.type ys ∧
        (r.allocated < r.used → r.remaining < 0)) ∧
    leaveBalance [bigLeave] 5 0 =
      [rowCLneg, { type := "SL", allocated := 8, used := 0, remaining := 8 },
        { type := "PL", allocated := 12, used := 0, remaining := 12 }] := by
  refine ⟨rfl, ?_, by decide⟩
  intro r hr
  unfold leaveBalance at hr
  rw [List.mem_map] at hr
  obtain ⟨p, hp, rfl⟩ := hr
  refine ⟨rfl, rfl, fun h => ?_⟩
  dsimp only at h ⊢
  omega

/-- C9 witness: on the overdrawn single-leave state the route errors, while
the dead mapping's CL row satisfies the claimed arithmetic and is
negative. -/
theorem C9_witness :
    leaveBalanceRoute [bigLeave] 5 0 =
      Except.error "Failed to fetch balances" ∧
    rowCLneg.remaining = rowCLneg.allocated - rowCLneg.used ∧
    rowCLneg.remaining < 0 := by
  have h := C9_balance_unreachable [bigLeave] 5 0
  exact ⟨h.1, (h.2.1 rowCLneg (by decide)).1,
    (h.2.1 rowCLneg (by decide)).2.2 (by decide)⟩

/-- C10: rejecting a pending request leaves the attendance ledger untouched
and, on the leaves table, changes only the target row's status and approver:
row count is preserved, rows with other ids pass through identically, and
every resulting row agrees with a stored row on employee, category, dates,
reason and creation timestamp, with the target row now `rejected` and
carrying the approver. -/
theorem C10_reject_frame (db db' : DB) (id approver : Nat) (r : String)
    (h : decideTx db id "rejected" approver true = (db', Except.ok r)) :
    db'.attendance = db.attendance ∧
    db'.leaves.length = db.leaves.length ∧
    (∀ x ∈ db.leaves, x.id ≠ id → x ∈ db'.leaves) ∧
    (∀ x ∈ db'.leaves, ∃ y ∈ db.leaves, x.id = y.id ∧
      x.employee_id = y.employee_id ∧ x.type = y.type ∧
      x.start_date = y.start_date ∧ x.end_date = y.end_date ∧
      x.reason = y.reason ∧ x.created_at = y.created_at ∧
      (y.id ≠ id → x = y) ∧
      (y.id = id → x.status = "rejected" ∧ x.approver_id = some approver)) := by
  obtain ⟨hror, hrs, leave, hfind, hleaves, hattor⟩ := decideTx_ok h
  rw [lowerString_rejected] at hrs
  subst hrs
  rcases hattor with ⟨hra, -⟩ | ⟨-, hatt⟩
  · exact absurd hra (by decide)
  · refine ⟨hatt, ?_, ?_, ?_⟩
    · rw [hleaves, List.length_map]
    · intro x hx hxid
      rw [hleaves, List.mem_map]
      exact ⟨x, hx, setDecided_noop hxid⟩
    · intro x hx
      rw [hleaves, List.mem_map] at hx
      obtain ⟨y, hy, rfl⟩ := hx
      unfold setDecided
      by_cases hyid : y.id = id
      · rw [if_pos hyid]
        exact ⟨y, hy, rfl, rfl, rfl, rfl, rfl, rfl, rfl,
          fun hc => absurd hyid hc, fun _ => ⟨rfl, rfl⟩⟩
      · rw [if_neg hyid]
        exact ⟨y, hy, rfl, rfl, rfl, rfl, rfl, rfl, rfl,
          fun _ => rfl, fun hc => absurd hc hyid⟩

/-- C10 witness: rejecting the pending request of `db0` touches neither the
attendance ledger nor any field of the request except status and
approver. -/
theorem C10_witness :
    dbRejc.attendance = db0.attendance ∧
    dbRejc.leaves.length = db0.leaves.length ∧
    (∀ x ∈ db0.leaves, x.id ≠ 1 → x ∈ dbRejc.leaves) ∧
    (∀ x ∈ dbRejc.leaves, ∃ y ∈ db0.leaves, x.id = y.id ∧
      x.employee_id = y.employee_id ∧ x.type = y.type ∧
      x.start_date = y.start_date ∧ x.end_date = y.end_date ∧
      x.reason = y.reason ∧ x.created_at = y.created_at ∧
      (y.id ≠ 1 → x = y) ∧
      (y.id = 1 → x.status = "rejected" ∧ x.approver_id = some 7)) :=
  C10_reject_frame db0 dbRejc 1 7 "rejected" (by decide)

end HRMS
